import Mathlib

/-!
Verification of the jsoncons core slice: the Base64/Base64URL codec of
`include/jsoncons/jsoncons_utilities.hpp` and the JSONPath aggregate
function table of `include/jsoncons_ext/jsonpath/jsonpath_function.hpp`.
Octets are modelled as `Nat` below 256, strings as `List Char`, and the
IEEE f64 arithmetic used by the aggregates as exact rational arithmetic.
-/

set_option maxHeartbeats 1000000
set_option maxRecDepth 100000

namespace Jsoncons

/-- The standard base64 alphabet string of `jsoncons_utilities.hpp`
(lines 36-39): the 26 upper-case letters, 26 lower-case letters, the ten
digits, `+`, `/`, and `=` as the 65th (pad) character. -/
def base64_alphabet : List Char :=
  "ABCDEFGHIJKLMNOPQRSTUVWXYZabcdefghijklmnopqrstuvwxyz0123456789+/=".toList

/-- The URL-safe alphabet as it is actually stored by the source (lines
40-43).  The C++ literal ends in `"\0"`, but `std::string`'s
`const char*` constructor measures the length with `strlen`, which stops
at that embedded NUL: the stored string therefore has only 64 characters
and its `back()` is `'/'`, not the NUL pad sentinel the literal tried to
add. -/
def base64url_alphabet : List Char :=
  "ABCDEFGHIJKLMNOPQRSTUVWXYZabcdefghijklmnopqrstuvwxyz0123456789+/".toList

/-- `is_base64` of `jsoncons_utilities.hpp` lines 45-49: alphanumeric or
`+` or `/`. -/
def is_base64 (c : Char) : Bool :=
  c.isAlphanum || c == '+' || c == '/'

/-- `encode_base64(first, last, alphabet, result)` of
`jsoncons_utilities.hpp` lines 63-114.  The input is consumed in groups
of three octets; each full group appends four alphabet symbols to
`result`.  A trailing partial group of `k` octets is zero-extended,
contributes its first `k+1` symbols, and is then brought to four symbols
with the fill character `alphabet.back()` unless that character is the
NUL byte. -/
def encode_base64 (alphabet : List Char) : List Nat → List Char → List Char
  | b0 :: b1 :: b2 :: rest, result =>
      let a40 := (b0 &&& 0xfc) >>> 2
      let a41 := ((b0 &&& 0x03) <<< 4) + ((b1 &&& 0xf0) >>> 4)
      let a42 := ((b1 &&& 0x0f) <<< 2) + ((b2 &&& 0xc0) >>> 6)
      let a43 := b2 &&& 0x3f
      encode_base64 alphabet rest
        (result ++ [alphabet.getD a40 '?', alphabet.getD a41 '?',
                    alphabet.getD a42 '?', alphabet.getD a43 '?'])
  | [b0, b1], result =>
      let fill := alphabet.getLastD '?'
      let a40 := (b0 &&& 0xfc) >>> 2
      let a41 := ((b0 &&& 0x03) <<< 4) + ((b1 &&& 0xf0) >>> 4)
      let a42 := ((b1 &&& 0x0f) <<< 2) + ((0 &&& 0xc0) >>> 6)
      let out := result ++ [alphabet.getD a40 '?', alphabet.getD a41 '?',
                            alphabet.getD a42 '?']
      if fill.toNat ≠ 0 then out ++ [fill] else out
  | [b0], result =>
      let fill := alphabet.getLastD '?'
      let a40 := (b0 &&& 0xfc) >>> 2
      let a41 := ((b0 &&& 0x03) <<< 4) + ((0 &&& 0xf0) >>> 4)
      let out := result ++ [alphabet.getD a40 '?', alphabet.getD a41 '?']
      if fill.toNat ≠ 0 then out ++ [fill, fill] else out
  | [], result => result

/-- The two-argument `encode_base64(first, last, result)` overload
(lines 57-61): encode with the standard alphabet. -/
def encode_base64_std (input : List Nat) (result : List Char) : List Char :=
  encode_base64 base64_alphabet input result

/-- `encode_base64url(first, last, result)` (lines 51-55): encode with
the URL-safe alphabet as stored. -/
def encode_base64url (input : List Nat) (result : List Char) : List Char :=
  encode_base64 base64url_alphabet input result

/-- The codec error kind of the spec's error taxonomy. -/
inductive base64_errc where
  | invalid_base64
deriving DecidableEq

/-- `base64_alphabet.find(c)` cast to `uint8_t` (lines 137 and 156):
the index of `c` in the standard alphabet, reduced modulo 256 as the
`static_cast<uint8_t>` does. -/
def b64_find (c : Char) : Nat :=
  (base64_alphabet.indexOf c) % 256

/-- The octet-reconstruction loop of `decode_base64` (lines 128-166),
applied to the run of symbols before the first `=`.  Each full group of
four symbols is mapped through `b64_find` and yields three octets; a
trailing group of `i` symbols yields `i - 1` octets (so a trailing
single symbol yields none).  Stores into the `uint8_t` array `a3` are
modelled by the reductions modulo 256. -/
def decode_chunks : List Char → List Nat
  | c0 :: c1 :: c2 :: c3 :: rest =>
      let i0 := b64_find c0
      let i1 := b64_find c1
      let i2 := b64_find c2
      let i3 := b64_find c3
      ((i0 <<< 2) + ((i1 &&& 0x30) >>> 4)) % 256 ::
      (((i1 &&& 0xf) <<< 4) + ((i2 &&& 0x3c) >>> 2)) % 256 ::
      (((i2 &&& 0x3) <<< 6) + i3) % 256 ::
      decode_chunks rest
  | [c0, c1, c2] =>
      let i0 := b64_find c0
      let i1 := b64_find c1
      let i2 := b64_find c2
      [((i0 <<< 2) + ((i1 &&& 0x30) >>> 4)) % 256,
       (((i1 &&& 0xf) <<< 4) + ((i2 &&& 0x3c) >>> 2)) % 256]
  | [c0, c1] =>
      let i0 := b64_find c0
      let i1 := b64_find c1
      [((i0 <<< 2) + ((i1 &&& 0x30) >>> 4)) % 256]
  | [_] => []
  | [] => []

/-- Modelled from the spec: `decode_base64` (lines 116-169) checks every
character before the first `=` with `JSONCONS_ASSERT(is_base64(*first))`;
the `JSONCONS_ASSERT` macro lives in `jsoncons_config.hpp`, which is not
among the supplied sources, and the spec states that this failure is
surfaced as the `InvalidBase64` codec error.  Everything else follows the
source: the scan stops at the first `=` or at end-of-input, and the
accumulated symbols are decoded by `decode_chunks`. -/
def decode_base64 (s : List Char) : Except base64_errc (List Nat) :=
  let pre := s.takeWhile (fun c => c ≠ '=')
  if pre.all is_base64 then Except.ok (decode_chunks pre)
  else Except.error base64_errc.invalid_base64

/-! Helper lemmas about the codec. -/

theorem encode_base64_acc (alphabet : List Char) :
    ∀ (xs : List Nat) (r : List Char),
      encode_base64 alphabet xs r = r ++ encode_base64 alphabet xs []
  | [], r => by simp [encode_base64]
  | [b0], r => by
      simp only [encode_base64]
      split <;> simp
  | [b0, b1], r => by
      simp only [encode_base64]
      split <;> simp
  | b0 :: b1 :: b2 :: t, r => by
      simp only [encode_base64]
      conv_lhs => rw [encode_base64_acc alphabet t]
      conv_rhs => rw [encode_base64_acc alphabet t]
      simp

theorem encode_base64_std_length_acc :
    ∀ (xs : List Nat) (r : List Char),
      (encode_base64 base64_alphabet xs r).length = r.length + 4 * ((xs.length + 2) / 3)
  | [], r => by simp [encode_base64]
  | [b0], r => by
      simp only [encode_base64]
      rw [if_pos (by decide : ((base64_alphabet.getLastD '?').toNat ≠ 0))]
      simp
  | [b0, b1], r => by
      simp only [encode_base64]
      rw [if_pos (by decide : ((base64_alphabet.getLastD '?').toNat ≠ 0))]
      simp
  | b0 :: b1 :: b2 :: t, r => by
      simp only [encode_base64]
      rw [encode_base64_std_length_acc t]
      simp [List.length_cons]
      omega

theorem decode_chunks_append :
    ∀ (t : List Char), t.length % 4 = 0 → ∀ u : List Char,
      decode_chunks (t ++ u) = decode_chunks t ++ decode_chunks u
  | [], _, u => by simp [decode_chunks]
  | c0 :: c1 :: c2 :: c3 :: t, h, u => by
      have ht : t.length % 4 = 0 := by simp [List.length_cons] at h; omega
      have ih := decode_chunks_append t ht u
      simp only [List.cons_append, decode_chunks, List.append_eq]
      rw [ih]
  | [c], h, u => by simp at h
  | [c0, c1], h, u => by simp at h
  | [c0, c1, c2], h, u => by simp at h

theorem takeWhile_append_all (p : Char → Bool) :
    ∀ (l1 : List Char), (∀ c ∈ l1, p c = true) → ∀ l2 : List Char,
      (l1 ++ l2).takeWhile p = l1 ++ l2.takeWhile p
  | [], _, l2 => by simp
  | c :: t, h, l2 => by
      have hc : p c = true := h c (by simp)
      have ih := takeWhile_append_all p t (fun x hx => h x (by simp [hx])) l2
      simp [List.takeWhile_cons, hc, ih]

theorem takeWhile_all_eq (p : Char → Bool) (l : List Char)
    (h : ∀ c ∈ l, p c = true) : l.takeWhile p = l := by
  have := takeWhile_append_all p l h []
  simpa using this

/-! The six-bit index computations of the encoder, rewritten as division
and remainder, checked exhaustively over the 256 octet values. -/

theorem enc_hi6 : ∀ b : Fin 256, (b.val &&& 0xfc) >>> 2 = b.val / 4 := by decide

theorem enc_lo2_shl4 : ∀ b : Fin 256, (b.val &&& 0x03) <<< 4 = b.val % 4 * 16 := by decide

theorem enc_hi4_shr4 : ∀ b : Fin 256, (b.val &&& 0xf0) >>> 4 = b.val / 16 := by decide

theorem enc_lo4_shl2 : ∀ b : Fin 256, (b.val &&& 0x0f) <<< 2 = b.val % 16 * 4 := by decide

theorem enc_hi2_shr6 : ∀ b : Fin 256, (b.val &&& 0xc0) >>> 6 = b.val / 64 := by decide

theorem enc_lo6 : ∀ b : Fin 256, b.val &&& 0x3f = b.val % 64 := by decide

/-! The octet reconstructions of the decoder over six-bit indices. -/

theorem dec_shl2 : ∀ k : Fin 64, k.val <<< 2 = k.val * 4 := by decide

theorem dec_mid_shr4 : ∀ k : Fin 64, (k.val &&& 0x30) >>> 4 = k.val / 16 := by decide

theorem dec_lo4_shl4 : ∀ k : Fin 64, (k.val &&& 0xf) <<< 4 = k.val % 16 * 16 := by decide

theorem dec_mid_shr2 : ∀ k : Fin 64, (k.val &&& 0x3c) >>> 2 = k.val / 4 := by decide

theorem dec_lo2_shl6 : ∀ k : Fin 64, (k.val &&& 0x3) <<< 6 = k.val % 4 * 64 := by decide

/-! Facts about the standard alphabet's first 64 symbols. -/

theorem b64_symbol_valid :
    ∀ k : Fin 64, is_base64 (base64_alphabet.getD k.val '?') = true := by decide

theorem b64_symbol_ne_pad :
    ∀ k : Fin 64, (base64_alphabet.getD k.val '?') ≠ '=' := by decide

theorem b64_find_symbol :
    ∀ k : Fin 64, b64_find (base64_alphabet.getD k.val '?') = k.val := by decide

theorem is_base64_ne_pad (c : Char) (h : is_base64 c = true) : c ≠ '=' := by
  intro hc
  subst hc
  exact absurd h (by decide)

theorem decode_base64_eq (s : List Char) :
    decode_base64 s =
      if (s.takeWhile (fun c => c ≠ '=')).all is_base64 then
        Except.ok (decode_chunks (s.takeWhile (fun c => c ≠ '=')))
      else Except.error base64_errc.invalid_base64 := rfl

theorem encode_std_one (b0 : Nat) (hb0 : b0 < 256) :
    encode_base64 base64_alphabet [b0] [] =
      [base64_alphabet.getD (b0 / 4) '?',
       base64_alphabet.getD (b0 % 4 * 16) '?', '=', '='] := by
  have e0 : (b0 &&& 0xfc) >>> 2 = b0 / 4 := enc_hi6 ⟨b0, hb0⟩
  have e1 : (b0 &&& 0x03) <<< 4 = b0 % 4 * 16 := enc_lo2_shl4 ⟨b0, hb0⟩
  simp only [encode_base64]
  rw [if_pos (by decide : ((base64_alphabet.getLastD '?').toNat ≠ 0))]
  rw [show base64_alphabet.getLastD '?' = '=' from by decide]
  simp only [List.nil_append, e0, e1]
  norm_num

theorem encode_std_two (b0 b1 : Nat) (hb0 : b0 < 256) (hb1 : b1 < 256) :
    encode_base64 base64_alphabet [b0, b1] [] =
      [base64_alphabet.getD (b0 / 4) '?',
       base64_alphabet.getD (b0 % 4 * 16 + b1 / 16) '?',
       base64_alphabet.getD (b1 % 16 * 4) '?', '='] := by
  have e0 : (b0 &&& 0xfc) >>> 2 = b0 / 4 := enc_hi6 ⟨b0, hb0⟩
  have e1 : (b0 &&& 0x03) <<< 4 = b0 % 4 * 16 := enc_lo2_shl4 ⟨b0, hb0⟩
  have e2 : (b1 &&& 0xf0) >>> 4 = b1 / 16 := enc_hi4_shr4 ⟨b1, hb1⟩
  have e3 : (b1 &&& 0x0f) <<< 2 = b1 % 16 * 4 := enc_lo4_shl2 ⟨b1, hb1⟩
  simp only [encode_base64]
  rw [if_pos (by decide : ((base64_alphabet.getLastD '?').toNat ≠ 0))]
  rw [show base64_alphabet.getLastD '?' = '=' from by decide]
  simp only [List.nil_append, e0, e1, e2, e3]
  norm_num

theorem encode_std_group (b0 b1 b2 : Nat) (t : List Nat)
    (hb0 : b0 < 256) (hb1 : b1 < 256) (hb2 : b2 < 256) :
    encode_base64 base64_alphabet (b0 :: b1 :: b2 :: t) [] =
      base64_alphabet.getD (b0 / 4) '?' ::
      base64_alphabet.getD (b0 % 4 * 16 + b1 / 16) '?' ::
      base64_alphabet.getD (b1 % 16 * 4 + b2 / 64) '?' ::
      base64_alphabet.getD (b2 % 64) '?' ::
      encode_base64 base64_alphabet t [] := by
  have e0 : (b0 &&& 0xfc) >>> 2 = b0 / 4 := enc_hi6 ⟨b0, hb0⟩
  have e1 : (b0 &&& 0x03) <<< 4 = b0 % 4 * 16 := enc_lo2_shl4 ⟨b0, hb0⟩
  have e2 : (b1 &&& 0xf0) >>> 4 = b1 / 16 := enc_hi4_shr4 ⟨b1, hb1⟩
  have e3 : (b1 &&& 0x0f) <<< 2 = b1 % 16 * 4 := enc_lo4_shl2 ⟨b1, hb1⟩
  have e4 : (b2 &&& 0xc0) >>> 6 = b2 / 64 := enc_hi2_shr6 ⟨b2, hb2⟩
  have e5 : b2 &&& 0x3f = b2 % 64 := enc_lo6 ⟨b2, hb2⟩
  simp only [encode_base64]
  rw [encode_base64_acc base64_alphabet t]
  simp only [List.nil_append, e0, e1, e2, e3, e4, e5]
  simp

theorem takeWhile_ne_pad_cons (c : Char) (l : List Char) (h : c ≠ '=') :
    (c :: l).takeWhile (fun x => x ≠ '=') = c :: l.takeWhile (fun x => x ≠ '=') := by
  rw [List.takeWhile_cons_of_pos]
  exact decide_eq_true h

theorem takeWhile_pad_nil (l : List Char) :
    ('=' :: l).takeWhile (fun x => x ≠ '=') = [] := by
  rw [List.takeWhile_cons_of_neg]
  simp

theorem decode_encode_std :
    ∀ (xs : List Nat), (∀ b ∈ xs, b < 256) →
      decode_base64 (encode_base64 base64_alphabet xs []) = Except.ok xs
  | [], _ => by rfl
  | [b0], h => by
      have hb0 : b0 < 256 := h b0 (by simp)
      have hi0 : b0 / 4 < 64 := by omega
      have hi1 : b0 % 4 * 16 < 64 := by omega
      have hn0 : base64_alphabet.getD (b0 / 4) '?' ≠ '=' :=
        b64_symbol_ne_pad ⟨b0 / 4, hi0⟩
      have hn1 : base64_alphabet.getD (b0 % 4 * 16) '?' ≠ '=' :=
        b64_symbol_ne_pad ⟨b0 % 4 * 16, hi1⟩
      have hv0 : is_base64 (base64_alphabet.getD (b0 / 4) '?') = true :=
        b64_symbol_valid ⟨b0 / 4, hi0⟩
      have hv1 : is_base64 (base64_alphabet.getD (b0 % 4 * 16) '?') = true :=
        b64_symbol_valid ⟨b0 % 4 * 16, hi1⟩
      have hf0 : b64_find (base64_alphabet.getD (b0 / 4) '?') = b0 / 4 :=
        b64_find_symbol ⟨b0 / 4, hi0⟩
      have hf1 : b64_find (base64_alphabet.getD (b0 % 4 * 16) '?') = b0 % 4 * 16 :=
        b64_find_symbol ⟨b0 % 4 * 16, hi1⟩
      rw [encode_std_one b0 hb0, decode_base64_eq]
      rw [takeWhile_ne_pad_cons _ _ hn0, takeWhile_ne_pad_cons _ _ hn1,
          takeWhile_pad_nil]
      rw [if_pos (by rw [List.all_cons, hv0, List.all_cons, hv1]; rfl)]
      simp only [decode_chunks, hf0, hf1]
      rw [dec_shl2 ⟨b0 / 4, hi0⟩, dec_mid_shr4 ⟨b0 % 4 * 16, hi1⟩]
      rw [show (b0 / 4 * 4 + b0 % 4 * 16 / 16) % 256 = b0 from by omega]
  | [b0, b1], h => by
      have hb0 : b0 < 256 := h b0 (by simp)
      have hb1 : b1 < 256 := h b1 (by simp)
      have hi0 : b0 / 4 < 64 := by omega
      have hi1 : b0 % 4 * 16 + b1 / 16 < 64 := by omega
      have hi2 : b1 % 16 * 4 < 64 := by omega
      have hn0 : base64_alphabet.getD (b0 / 4) '?' ≠ '=' :=
        b64_symbol_ne_pad ⟨b0 / 4, hi0⟩
      have hn1 : base64_alphabet.getD (b0 % 4 * 16 + b1 / 16) '?' ≠ '=' :=
        b64_symbol_ne_pad ⟨b0 % 4 * 16 + b1 / 16, hi1⟩
      have hn2 : base64_alphabet.getD (b1 % 16 * 4) '?' ≠ '=' :=
        b64_symbol_ne_pad ⟨b1 % 16 * 4, hi2⟩
      have hv0 : is_base64 (base64_alphabet.getD (b0 / 4) '?') = true :=
        b64_symbol_valid ⟨b0 / 4, hi0⟩
      have hv1 : is_base64 (base64_alphabet.getD (b0 % 4 * 16 + b1 / 16) '?') = true :=
        b64_symbol_valid ⟨b0 % 4 * 16 + b1 / 16, hi1⟩
      have hv2 : is_base64 (base64_alphabet.getD (b1 % 16 * 4) '?') = true :=
        b64_symbol_valid ⟨b1 % 16 * 4, hi2⟩
      have hf0 : b64_find (base64_alphabet.getD (b0 / 4) '?') = b0 / 4 :=
        b64_find_symbol ⟨b0 / 4, hi0⟩
      have hf1 : b64_find (base64_alphabet.getD (b0 % 4 * 16 + b1 / 16) '?') =
          b0 % 4 * 16 + b1 / 16 := b64_find_symbol ⟨b0 % 4 * 16 + b1 / 16, hi1⟩
      have hf2 : b64_find (base64_alphabet.getD (b1 % 16 * 4) '?') = b1 % 16 * 4 :=
        b64_find_symbol ⟨b1 % 16 * 4, hi2⟩
      rw [encode_std_two b0 b1 hb0 hb1, decode_base64_eq]
      rw [takeWhile_ne_pad_cons _ _ hn0, takeWhile_ne_pad_cons _ _ hn1,
          takeWhile_ne_pad_cons _ _ hn2, takeWhile_pad_nil]
      rw [if_pos (by rw [List.all_cons, hv0, List.all_cons, hv1, List.all_cons, hv2]; rfl)]
      simp only [decode_chunks, hf0, hf1, hf2]
      rw [dec_shl2 ⟨b0 / 4, hi0⟩, dec_mid_shr4 ⟨b0 % 4 * 16 + b1 / 16, hi1⟩,
          dec_lo4_shl4 ⟨b0 % 4 * 16 + b1 / 16, hi1⟩, dec_mid_shr2 ⟨b1 % 16 * 4, hi2⟩]
      rw [show (b0 / 4 * 4 + (b0 % 4 * 16 + b1 / 16) / 16) % 256 = b0 from by omega]
      rw [show ((b0 % 4 * 16 + b1 / 16) % 16 * 16 + b1 % 16 * 4 / 4) % 256 = b1 from by
        omega]
  | b0 :: b1 :: b2 :: t, h => by
      have hb0 : b0 < 256 := h b0 (by simp)
      have hb1 : b1 < 256 := h b1 (by simp)
      have hb2 : b2 < 256 := h b2 (by simp)
      have ih := decode_encode_std t (fun b hb => h b (by simp [hb]))
      have hi0 : b0 / 4 < 64 := by omega
      have hi1 : b0 % 4 * 16 + b1 / 16 < 64 := by omega
      have hi2 : b1 % 16 * 4 + b2 / 64 < 64 := by omega
      have hi3 : b2 % 64 < 64 := by omega
      have hn0 : base64_alphabet.getD (b0 / 4) '?' ≠ '=' :=
        b64_symbol_ne_pad ⟨b0 / 4, hi0⟩
      have hn1 : base64_alphabet.getD (b0 % 4 * 16 + b1 / 16) '?' ≠ '=' :=
        b64_symbol_ne_pad ⟨b0 % 4 * 16 + b1 / 16, hi1⟩
      have hn2 : base64_alphabet.getD (b1 % 16 * 4 + b2 / 64) '?' ≠ '=' :=
        b64_symbol_ne_pad ⟨b1 % 16 * 4 + b2 / 64, hi2⟩
      have hn3 : base64_alphabet.getD (b2 % 64) '?' ≠ '=' :=
        b64_symbol_ne_pad ⟨b2 % 64, hi3⟩
      have hv0 : is_base64 (base64_alphabet.getD (b0 / 4) '?') = true :=
        b64_symbol_valid ⟨b0 / 4, hi0⟩
      have hv1 : is_base64 (base64_alphabet.getD (b0 % 4 * 16 + b1 / 16) '?') = true :=
        b64_symbol_valid ⟨b0 % 4 * 16 + b1 / 16, hi1⟩
      have hv2 : is_base64 (base64_alphabet.getD (b1 % 16 * 4 + b2 / 64) '?') = true :=
        b64_symbol_valid ⟨b1 % 16 * 4 + b2 / 64, hi2⟩
      have hv3 : is_base64 (base64_alphabet.getD (b2 % 64) '?') = true :=
        b64_symbol_valid ⟨b2 % 64, hi3⟩
      have hf0 : b64_find (base64_alphabet.getD (b0 / 4) '?') = b0 / 4 :=
        b64_find_symbol ⟨b0 / 4, hi0⟩
      have hf1 : b64_find (base64_alphabet.getD (b0 % 4 * 16 + b1 / 16) '?') =
          b0 % 4 * 16 + b1 / 16 := b64_find_symbol ⟨b0 % 4 * 16 + b1 / 16, hi1⟩
      have hf2 : b64_find (base64_alphabet.getD (b1 % 16 * 4 + b2 / 64) '?') =
          b1 % 16 * 4 + b2 / 64 := b64_find_symbol ⟨b1 % 16 * 4 + b2 / 64, hi2⟩
      have hf3 : b64_find (base64_alphabet.getD (b2 % 64) '?') = b2 % 64 :=
        b64_find_symbol ⟨b2 % 64, hi3⟩
      rw [encode_std_group b0 b1 b2 t hb0 hb1 hb2, decode_base64_eq]
      rw [show (base64_alphabet.getD (b0 / 4) '?' ::
                base64_alphabet.getD (b0 % 4 * 16 + b1 / 16) '?' ::
                base64_alphabet.getD (b1 % 16 * 4 + b2 / 64) '?' ::
                base64_alphabet.getD (b2 % 64) '?' ::
                encode_base64 base64_alphabet t []) =
              [base64_alphabet.getD (b0 / 4) '?',
               base64_alphabet.getD (b0 % 4 * 16 + b1 / 16) '?',
               base64_alphabet.getD (b1 % 16 * 4 + b2 / 64) '?',
               base64_alphabet.getD (b2 % 64) '?'] ++
                encode_base64 base64_alphabet t [] from rfl]
      rw [takeWhile_append_all _ _ (by
        intro c hc
        simp only [List.mem_cons] at hc
        rcases hc with h1 | h1 | h1 | h1 | h1
        · rw [h1]; exact decide_eq_true hn0
        · rw [h1]; exact decide_eq_true hn1
        · rw [h1]; exact decide_eq_true hn2
        · rw [h1]; exact decide_eq_true hn3
        · exact absurd h1 (List.not_mem_nil c))]
      rw [decode_base64_eq] at ih
      by_cases hall :
          ((encode_base64 base64_alphabet t []).takeWhile (fun c => c ≠ '=')).all
            is_base64
      · rw [if_pos hall] at ih
        have hchunks := Except.ok.inj ih
        rw [if_pos (by
          rw [List.all_append, List.all_cons, hv0, List.all_cons, hv1,
              List.all_cons, hv2, List.all_cons, hv3, List.all_nil, hall]
          rfl)]
        rw [show ([base64_alphabet.getD (b0 / 4) '?',
                   base64_alphabet.getD (b0 % 4 * 16 + b1 / 16) '?',
                   base64_alphabet.getD (b1 % 16 * 4 + b2 / 64) '?',
                   base64_alphabet.getD (b2 % 64) '?'] ++
                    ((encode_base64 base64_alphabet t []).takeWhile
                      (fun c => c ≠ '='))) =
              (base64_alphabet.getD (b0 / 4) '?' ::
               base64_alphabet.getD (b0 % 4 * 16 + b1 / 16) '?' ::
               base64_alphabet.getD (b1 % 16 * 4 + b2 / 64) '?' ::
               base64_alphabet.getD (b2 % 64) '?' ::
                ((encode_base64 base64_alphabet t []).takeWhile
                  (fun c => c ≠ '='))) from rfl]
        simp only [decode_chunks, hf0, hf1, hf2, hf3]
        rw [dec_shl2 ⟨b0 / 4, hi0⟩, dec_mid_shr4 ⟨b0 % 4 * 16 + b1 / 16, hi1⟩,
            dec_lo4_shl4 ⟨b0 % 4 * 16 + b1 / 16, hi1⟩,
            dec_mid_shr2 ⟨b1 % 16 * 4 + b2 / 64, hi2⟩,
            dec_lo2_shl6 ⟨b1 % 16 * 4 + b2 / 64, hi2⟩]
        rw [show (b0 / 4 * 4 + (b0 % 4 * 16 + b1 / 16) / 16) % 256 = b0 from by omega]
        rw [show ((b0 % 4 * 16 + b1 / 16) % 16 * 16 +
              (b1 % 16 * 4 + b2 / 64) / 4) % 256 = b1 from by omega]
        rw [show ((b1 % 16 * 4 + b2 / 64) % 4 * 64 + b2 % 64) % 256 = b2 from by omega]
        rw [hchunks]
      · rw [if_neg hall] at ih
        exact absurd ih (by simp)

/-!
The JSONPath function table of `jsonpath_function.hpp`.  The `Json`
value class itself is external to the supplied sources; it is modelled
by the small variant type below, with IEEE f64 numbers modelled by exact
rationals.  `std::regex` is external as well, so `tokenize`'s
regex-token-iterator pass is a parameter of the table.

The preprocessor guard around the `tokenize` entry,
`#if !defined(__GNUC__) && (__GNUC__ == 4 && __GNUC_MINOR__ < 9)`, is
false under every compiler (one conjunct requires `__GNUC__` undefined,
the other requires it equal to 4), and excluding the guarded text leaves
the initializer of `functions_` with unbalanced braces, which does not
compile; the only compilable reading of the source is the one with the
`tokenize` entry present, and that reading is embedded here.
-/

/-- The JSONPath error codes referenced by `jsonpath_function.hpp`.
Modelled from the spec: `jsonpath_error.hpp` is not among the supplied
sources; the spec's error-code enum lists `InvalidFunctionArgument` and
`FunctionNameNotFound`. -/
inductive jsonpath_errc where
  | invalid_function_argument
  | function_name_not_found
deriving DecidableEq

/-- Modelled from the spec: the external `Value` interface, restricted
to the operations the function table uses — numbers (f64, modelled as
exact rationals), strings, arrays, and null. -/
inductive Json where
  | null
  | num (v : ℚ)
  | str (s : String)
  | arr (elems : List Json)

/-- Modelled from the spec: the default-constructed `Json()` that the
functions return on arity mismatch; the spec calls it "a default/empty
value". -/
def Json.defaultJson : Json := Json.null

/-- Modelled from the spec: the `Value` contract's `as_number()`
coercion (`node->template as<double>()`); numeric nodes yield their
number; the contract's coercion of the other variants is taken as 0. -/
def asNumber (j : Json) : ℚ :=
  match j with
  | Json.num v => v
  | _ => 0

/-- Modelled from the spec: the `Value` contract's `as_string()`
coercion (`node->as_string()`); string nodes yield their string. -/
def asString (j : Json) : String :=
  match j with
  | Json.str s => s
  | _ => ""

/-- `node_set` of `jsonpath_function.hpp` lines 28-49: an ordered
sequence of node pointers; a pointer dereferences to a `Value`, so a
node is modelled by the value it points at. -/
structure node_set where
  nodes : List Json

/-- `std::numeric_limits<double>::max()`, the largest finite f64, as an
exact rational. -/
def double_max : ℚ := 2 ^ 1024 - 2 ^ 971

/-- `std::numeric_limits<double>::lowest()`, the smallest finite f64. -/
def double_lowest : ℚ := -(2 ^ 1024 - 2 ^ 971)

/-- The error out-parameter: `none` models a clear `std::error_code`,
`some e` a code that has been assigned `e`.  A function receives the
caller's state and returns the state after the call. -/
abbrev ErrState := Option jsonpath_errc

/-- The result of invoking a registered function: `none` models an
out-of-range `std::vector` element access (undefined behavior in the
source), `some (j, ec)` a normal return of `j` with error state `ec`. -/
abbrev FnResult := Option (Json × ErrState)

/-- The type-erased `function_type` of the table. -/
abbrev JPFunction := List node_set → ErrState → FnResult

/-- The `max` lambda (lines 66-84): arity 1; fold the coerced values
with `std::numeric_limits<double>::lowest()` as initial accumulator,
keeping the larger value. -/
def max_fn (args : List node_set) (ec : ErrState) : FnResult :=
  if args.length ≠ 1 then
    some (Json.defaultJson, some jsonpath_errc.invalid_function_argument)
  else
    let arg := args.getD 0 ⟨[]⟩
    let v := arg.nodes.foldl
      (fun v node => let x := asNumber node; if x > v then x else v) double_lowest
    some (Json.num v, ec)

/-- The `min` lambda (lines 87-105): arity 1; fold with
`std::numeric_limits<double>::max()` as initial accumulator, keeping the
smaller value. -/
def min_fn (args : List node_set) (ec : ErrState) : FnResult :=
  if args.length ≠ 1 then
    some (Json.defaultJson, some jsonpath_errc.invalid_function_argument)
  else
    let arg := args.getD 0 ⟨[]⟩
    let v := arg.nodes.foldl
      (fun v node => let x := asNumber node; if x < v then x else v) double_max
    some (Json.num v, ec)

/-- The `avg` lambda (lines 108-122): arity 1; sum the coerced values;
return sum divided by the node count when the set is non-empty, JSON
null otherwise. -/
def avg_fn (args : List node_set) (ec : ErrState) : FnResult :=
  if args.length ≠ 1 then
    some (Json.defaultJson, some jsonpath_errc.invalid_function_argument)
  else
    let arg := args.getD 0 ⟨[]⟩
    let v := arg.nodes.foldl (fun v node => v + asNumber node) 0
    some (if arg.nodes.length > 0 then Json.num (v / arg.nodes.length) else Json.null,
          ec)

/-- The `sum` lambda (lines 125-139): arity 1; sum of the coerced
values, starting from 0.0. -/
def sum_fn (args : List node_set) (ec : ErrState) : FnResult :=
  if args.length ≠ 1 then
    some (Json.defaultJson, some jsonpath_errc.invalid_function_argument)
  else
    let arg := args.getD 0 ⟨[]⟩
    let v := arg.nodes.foldl (fun v node => v + asNumber node) 0
    some (Json.num v, ec)

/-- The `count` lambda (lines 142-156): arity 1; the source increments a
counter while it is below `arg.nodes().size()`, which yields exactly the
size of the node-set. -/
def count_fn (args : List node_set) (ec : ErrState) : FnResult :=
  if args.length ≠ 1 then
    some (Json.defaultJson, some jsonpath_errc.invalid_function_argument)
  else
    let arg := args.getD 0 ⟨[]⟩
    some (Json.num (arg.nodes.length : ℚ), ec)

/-- The `prod` lambda (lines 159-177): arity 1; the accumulator starts
at 0.0 and for each coerced value x the source does
`v == 0.0 && x != 0.0 ? (v = x) : (v *= x)`. -/
def prod_fn (args : List node_set) (ec : ErrState) : FnResult :=
  if args.length ≠ 1 then
    some (Json.defaultJson, some jsonpath_errc.invalid_function_argument)
  else
    let arg := args.getD 0 ⟨[]⟩
    let v := arg.nodes.foldl
      (fun v node =>
        let x := asNumber node
        if v = 0 ∧ x ≠ 0 then x else v * x) 0
    some (Json.num v, ec)

/-- The `tokenize` lambda (lines 182-205): arity 2; reads
`args[0].nodes()[0]->as_string()` (the subject) and
`args[1].nodes()[0]->as_string()` (the separator regex), then builds a
JSON array of the tokens a `std::regex_token_iterator` with index -1
produces.  The element accesses `nodes()[0]` are unchecked
`std::vector::operator[]` calls: on an empty node-set they are
out-of-range, modelled by the `none` result.  The regex engine is
external to the repository and is passed in as `split`. -/
def tokenize_fn (split : String → String → List String)
    (args : List node_set) (ec : ErrState) : FnResult :=
  if args.length ≠ 2 then
    some (Json.defaultJson, some jsonpath_errc.invalid_function_argument)
  else
    match (args.getD 0 ⟨[]⟩).nodes with
    | [] => none
    | n0 :: _ =>
      match (args.getD 1 ⟨[]⟩).nodes with
      | [] => none
      | m0 :: _ =>
        some (Json.arr ((split (asString n0) (asString m0)).map Json.str), ec)

/-- The dictionary `functions_` (lines 63-208), in source order, keyed
by the `JSONCONS_DEFINE_LITERAL` strings. -/
def functions_ (split : String → String → List String) :
    List (String × JPFunction) :=
  [("max", max_fn), ("min", min_fn), ("avg", avg_fn), ("sum", sum_fn),
   ("count", count_fn), ("prod", prod_fn), ("tokenize", tokenize_fn split)]

/-- `function_table::get` (lines 210-219): look the name up; on a miss
set the error code to `function_name_not_found` and return a null handle
(`none`); on a hit return the registered function with the error state
untouched. -/
def function_table_get (split : String → String → List String)
    (name : String) (ec : ErrState) : Option JPFunction × ErrState :=
  match (functions_ split).lookup name with
  | none => (none, some jsonpath_errc.function_name_not_found)
  | some f => (some f, ec)

/-! Helper lemmas about the aggregate folds. -/

theorem foldl_add_asNumber (l : List Json) (a : ℚ) :
    l.foldl (fun v node => v + asNumber node) a = a + (l.map asNumber).sum := by
  induction l generalizing a with
  | nil => simp
  | cons n t ih => simp [List.foldl_cons, ih]; ring

theorem prod_fold_all_zero :
    ∀ l : List Json, (∀ n ∈ l, asNumber n = 0) →
      l.foldl (fun v node =>
        if v = 0 ∧ asNumber node ≠ 0 then asNumber node else v * asNumber node) 0 = 0
  | [], _ => rfl
  | n :: t, h => by
      have hn : asNumber n = 0 := h n (by simp)
      have ih := prod_fold_all_zero t (fun x hx => h x (by simp [hx]))
      simp only [List.foldl_cons]
      rw [if_neg (by simp [hn]), hn, mul_zero]
      exact ih

theorem prod_fold_no_zero :
    ∀ (l : List Json) (v : ℚ), v ≠ 0 → (∀ n ∈ l, asNumber n ≠ 0) →
      l.foldl (fun v node =>
          if v = 0 ∧ asNumber node ≠ 0 then asNumber node else v * asNumber node) v =
        v * (l.map asNumber).prod
  | [], v, _, _ => by simp
  | n :: t, v, hv, h => by
      have hn : asNumber n ≠ 0 := h n (by simp)
      have ih := prod_fold_no_zero t (v * asNumber n) (mul_ne_zero hv hn)
        (fun x hx => h x (by simp [hx]))
      simp only [List.foldl_cons]
      rw [if_neg (by simp [hv]), ih]
      simp [mul_assoc]

/-! The claims. -/

/-- C1: the claim states that `encode_base64url` emits no padding and that
its output length is `4·⌊n/3⌋ + (n mod 3) + 1` when `n mod 3 ≠ 0`.  The
code disagrees: because the stored URL-safe alphabet lost its NUL pad
sentinel to `std::string`'s `strlen` truncation, `alphabet.back()` is `'/'`
and the fill loop runs.  Evaluating the code at the single octet `0x00`:
the output is `"AA//"`, padded with `'/'` to length 4 instead of the
claimed `"AA"` of length 2. -/
theorem c1_base64url_pads_at_failing_input :
    encode_base64url [0x00] [] = ['A', 'A', '/', '/'] ∧
    (encode_base64url [0x00] []).length = 4 ∧ 4 ≠ 4 * 0 + 0 % 3 + 2 :=
  ⟨rfl, rfl, by decide⟩

/-- C2 counterexample: the claim says a trailing group of one symbol before
end-of-input fails with `InvalidBase64`; on the one-symbol input `"A"` the
decoder instead returns successfully with no octets (the emit loop runs
for `j < i - 1 = 0` iterations and the stray symbol is dropped). -/
theorem c2_counterexample_trailing_one :
    decode_base64 ['A'] = Except.ok [] ∧
    Except.ok ([] : List Nat) ≠ Except.error base64_errc.invalid_base64 :=
  ⟨rfl, fun h => Except.noConfusion h⟩

/-- C2 (amended): `decode_base64` fails with `InvalidBase64` exactly when a
non-alphabet character occurs before the first `=`; a trailing group of a
single symbol before `=` or end-of-input is ignored — it contributes no
octets and raises no error. -/
theorem c2_decode_error_policy (s : List Char) :
    (decode_base64 s = Except.error base64_errc.invalid_base64 ↔
      ∃ c ∈ s.takeWhile (fun c => c ≠ '='), is_base64 c = false) ∧
    (∀ c : Char, s.all is_base64 = true → s.length % 4 = 0 →
      is_base64 c = true → decode_base64 (s ++ [c]) = decode_base64 s) := by
  constructor
  · constructor
    · intro herr
      rw [decode_base64_eq] at herr
      by_cases hall : (s.takeWhile (fun c => c ≠ '=')).all is_base64 = true
      · rw [if_pos hall] at herr
        exact absurd herr (by simp)
      · have hex : ∃ c ∈ s.takeWhile (fun c => c ≠ '='), ¬ is_base64 c = true := by
          simpa [List.all_eq_true] using hall
        rcases hex with ⟨c, hc, hcb⟩
        exact ⟨c, hc, by simpa using hcb⟩
    · rintro ⟨c, hc, hcb⟩
      rw [decode_base64_eq, if_neg (fun hall => by
        have := List.all_eq_true.mp hall c hc
        rw [hcb] at this
        exact Bool.noConfusion this)]
  · intro c hs hlen hc
    have hsall : ∀ x ∈ s, is_base64 x = true := List.all_eq_true.mp hs
    have hpre : s.takeWhile (fun c => c ≠ '=') = s :=
      takeWhile_all_eq _ s (fun x hx => decide_eq_true (is_base64_ne_pad x (hsall x hx)))
    have hprec : (s ++ [c]).takeWhile (fun c => c ≠ '=') = s ++ [c] :=
      takeWhile_all_eq _ _ (fun x hx => by
        rcases List.mem_append.mp hx with h1 | h1
        · exact decide_eq_true (is_base64_ne_pad x (hsall x h1))
        · have hxc : x = c := by simpa using h1
          rw [hxc]
          exact decide_eq_true (is_base64_ne_pad c hc))
    rw [decode_base64_eq, decode_base64_eq, hpre, hprec]
    rw [if_pos (by rw [List.all_append, hs]; simp [hc]), if_pos hs]
    rw [decode_chunks_append s hlen [c]]
    simp [decode_chunks]

/-- C2 witness: the amended policy applied to two concrete inputs — `"?"`
has a non-alphabet character before any `=` and fails, and appending the
single symbol `'E'` to the complete group `"ABCD"` leaves the decoded
result unchanged. -/
theorem c2_decode_error_policy_witness :
    decode_base64 ['?'] = Except.error base64_errc.invalid_base64 ∧
    decode_base64 (['A', 'B', 'C', 'D'] ++ ['E']) =
      decode_base64 ['A', 'B', 'C', 'D'] :=
  ⟨(c2_decode_error_policy ['?']).1.mpr (by decide),
   (c2_decode_error_policy ['A', 'B', 'C', 'D']).2 'E' (by decide) (by decide)
     (by decide)⟩

/-- C3 counterexample: the claim says every registered function, `tokenize`
included, tolerates empty node-set arguments; `tokenize` invoked with the
correct two arguments, both empty node-sets, dereferences `nodes()[0]` of
an empty vector — an out-of-range access, not a completed call. -/
theorem c3_counterexample_tokenize_empty :
    tokenize_fn (fun _ _ => []) [⟨[]⟩, ⟨[]⟩] none = none := rfl

/-- C3 (amended): empty node-sets are tolerated by the six aggregate
functions, which complete and return a value; `tokenize` reads the first
node of each of its two arguments and performs an out-of-range vector
access whenever either argument node-set is empty. -/
theorem c3_empty_node_sets (ec : ErrState)
    (split : String → String → List String) (a : node_set) :
    max_fn [⟨[]⟩] ec = some (Json.num double_lowest, ec) ∧
    min_fn [⟨[]⟩] ec = some (Json.num double_max, ec) ∧
    avg_fn [⟨[]⟩] ec = some (Json.null, ec) ∧
    sum_fn [⟨[]⟩] ec = some (Json.num 0, ec) ∧
    count_fn [⟨[]⟩] ec = some (Json.num 0, ec) ∧
    prod_fn [⟨[]⟩] ec = some (Json.num 0, ec) ∧
    tokenize_fn split [⟨[]⟩, a] ec = none ∧
    tokenize_fn split [a, ⟨[]⟩] ec = none := by
  refine ⟨rfl, rfl, rfl, rfl, rfl, rfl, rfl, ?_⟩
  rcases a with ⟨ns⟩
  cases ns <;> rfl

/-- C4: base64 round-trip — decoding the standard-alphabet encoding of any
octet sequence returns exactly that sequence, including the padded partial
groups for lengths not divisible by three. -/
theorem c4_base64_roundtrip (xs : List Nat) (h : ∀ b ∈ xs, b < 256) :
    decode_base64 (encode_base64_std xs []) = Except.ok xs :=
  decode_encode_std xs h

/-- C4 witness: the round-trip at the four-octet sequence
`[0x00, 0xFF, 0x10, 0x07]`, which exercises one full group and a padded
partial group. -/
theorem c4_base64_roundtrip_witness :
    (∀ b ∈ [0, 255, 16, 7], b < 256) ∧
    decode_base64 (encode_base64_std [0, 255, 16, 7] []) =
      Except.ok [0, 255, 16, 7] :=
  ⟨by decide, c4_base64_roundtrip [0, 255, 16, 7] (by decide)⟩

/-- C5 counterexample: the claim says the first non-zero value replaces the
accumulator and every subsequent value multiplies it, which over coerced
values `[2, 0, 3]` would give `2 * 0 * 3 = 0`; the code's step
`v == 0.0 && x != 0.0 ? (v = x) : (v *= x)` re-seeds whenever the
accumulator is zero again, so `prod` over `[2, 0, 3]` returns `3.0`. -/
theorem c5_counterexample_prod_reseeds :
    prod_fn [⟨[Json.num 2, Json.num 0, Json.num 3]⟩] none =
      some (Json.num 3, none) ∧
    Json.num 3 ≠ Json.num (2 * 0 * 3) := by
  constructor
  · norm_num [prod_fn, asNumber]
  · intro h
    injection h with h1
    norm_num at h1

/-- C5 (amended): `prod` coerces each node to f64 and folds with the
accumulator starting at 0.0; at each step, if the accumulator is 0.0 and
the value is non-zero the value replaces the accumulator, otherwise the
accumulator is multiplied by the value (so a later zero resets the
accumulator and the next non-zero value replaces it again).  If every
value is 0.0 the result is 0.0; if no value is 0.0 the result is the
plain product; `prod` over nodes coercing to `[0, 2, 3]` returns 6.0. -/
theorem c5_prod_quirk (ns : List Json) (ec : ErrState) :
    prod_fn [⟨ns⟩] ec =
      some (Json.num (ns.foldl
        (fun v node =>
          if v = 0 ∧ asNumber node ≠ 0 then asNumber node
          else v * asNumber node) 0), ec) ∧
    ((∀ n ∈ ns, asNumber n = 0) → prod_fn [⟨ns⟩] ec = some (Json.num 0, ec)) ∧
    ((∀ n ∈ ns, asNumber n ≠ 0) → ns ≠ [] →
      prod_fn [⟨ns⟩] ec = some (Json.num ((ns.map asNumber).prod), ec)) ∧
    prod_fn [⟨[Json.num 0, Json.num 2, Json.num 3]⟩] ec =
      some (Json.num 6, ec) := by
  refine ⟨rfl, ?_, ?_, ?_⟩
  · intro hz
    rw [show prod_fn [⟨ns⟩] ec =
        some (Json.num (ns.foldl
          (fun v node =>
            if v = 0 ∧ asNumber node ≠ 0 then asNumber node
            else v * asNumber node) 0), ec) from rfl]
    rw [prod_fold_all_zero ns hz]
  · intro hnz hne
    rw [show prod_fn [⟨ns⟩] ec =
        some (Json.num (ns.foldl
          (fun v node =>
            if v = 0 ∧ asNumber node ≠ 0 then asNumber node
            else v * asNumber node) 0), ec) from rfl]
    rcases ns with _ | ⟨n, t⟩
    · exact absurd rfl hne
    · have hn : asNumber n ≠ 0 := hnz n (by simp)
      rw [List.foldl_cons, if_pos ⟨rfl, hn⟩]
      rw [prod_fold_no_zero t (asNumber n) hn (fun x hx => hnz x (by simp [hx]))]
      simp
  · norm_num [prod_fn, asNumber]

/-- C5 witness: the amended behavior at concrete inputs — all-zero values
(a null node coerces to 0.0) give 0.0, and zero-free values `[2, 3]` give
the plain product 6.0. -/
theorem c5_prod_quirk_witness :
    prod_fn [⟨[Json.null]⟩] none = some (Json.num 0, none) ∧
    prod_fn [⟨[Json.num 2, Json.num 3]⟩] none =
      some (Json.num (([Json.num 2, Json.num 3].map asNumber).prod), none) :=
  ⟨(c5_prod_quirk [Json.null] none).2.1 (by simp [asNumber]),
   (c5_prod_quirk [Json.num 2, Json.num 3] none).2.2.1
     (by intro n hn; rcases (by simpa using hn : n = Json.num 2 ∨ n = Json.num 3)
           with h | h <;> rw [h] <;> norm_num [asNumber])
     (by simp)⟩

/-- The arity of each registered function, as the spec's table states it:
2 for `tokenize`, 1 for the aggregates. -/
def fn_arity (name : String) : Nat :=
  if name = "tokenize" then 2 else 1

/-- C6: every registered function checks its argument count — on a
mismatch with its arity it returns the default-constructed value with the
error code set to `invalid_function_argument`; with the correct count,
whenever the call completes it leaves the error state exactly as it
received it. -/
theorem c6_arity_validation (split : String → String → List String) :
    ∀ p ∈ functions_ split, ∀ (args : List node_set) (ec : ErrState),
      (args.length ≠ fn_arity p.1 →
        p.2 args ec =
          some (Json.defaultJson, some jsonpath_errc.invalid_function_argument)) ∧
      (args.length = fn_arity p.1 →
        ∀ (j : Json) (ec2 : ErrState), p.2 args ec = some (j, ec2) → ec2 = ec) := by
  intro p hp args ec
  simp only [functions_, List.mem_cons, List.not_mem_nil, or_false] at hp
  rcases hp with rfl | rfl | rfl | rfl | rfl | rfl | rfl
  case _ =>
    refine ⟨fun hne => ?_, fun heq j ec2 hres => ?_⟩
    · simp only [max_fn]
      have hne1 : args.length ≠ 1 := hne
      rw [if_pos hne1]
    · simp only [max_fn] at hres
      rw [if_neg (by rw [heq]; decide)] at hres
      injection hres with h
      injection h with h1 h2
      exact h2.symm
  case _ =>
    refine ⟨fun hne => ?_, fun heq j ec2 hres => ?_⟩
    · simp only [min_fn]
      have hne1 : args.length ≠ 1 := hne
      rw [if_pos hne1]
    · simp only [min_fn] at hres
      rw [if_neg (by rw [heq]; decide)] at hres
      injection hres with h
      injection h with h1 h2
      exact h2.symm
  case _ =>
    refine ⟨fun hne => ?_, fun heq j ec2 hres => ?_⟩
    · simp only [avg_fn]
      have hne1 : args.length ≠ 1 := hne
      rw [if_pos hne1]
    · simp only [avg_fn] at hres
      rw [if_neg (by rw [heq]; decide)] at hres
      injection hres with h
      injection h with h1 h2
      exact h2.symm
  case _ =>
    refine ⟨fun hne => ?_, fun heq j ec2 hres => ?_⟩
    · simp only [sum_fn]
      have hne1 : args.length ≠ 1 := hne
      rw [if_pos hne1]
    · simp only [sum_fn] at hres
      rw [if_neg (by rw [heq]; decide)] at hres
      injection hres with h
      injection h with h1 h2
      exact h2.symm
  case _ =>
    refine ⟨fun hne => ?_, fun heq j ec2 hres => ?_⟩
    · simp only [count_fn]
      have hne1 : args.length ≠ 1 := hne
      rw [if_pos hne1]
    · simp only [count_fn] at hres
      rw [if_neg (by rw [heq]; decide)] at hres
      injection hres with h
      injection h with h1 h2
      exact h2.symm
  case _ =>
    refine ⟨fun hne => ?_, fun heq j ec2 hres => ?_⟩
    · simp only [prod_fn]
      have hne1 : args.length ≠ 1 := hne
      rw [if_pos hne1]
    · simp only [prod_fn] at hres
      rw [if_neg (by rw [heq]; decide)] at hres
      injection hres with h
      injection h with h1 h2
      exact h2.symm
  case _ =>
    refine ⟨fun hne => ?_, fun heq j ec2 hres => ?_⟩
    · simp only [tokenize_fn]
      have hne2 : args.length ≠ 2 := hne
      rw [if_pos hne2]
    · simp only [tokenize_fn] at hres
      rw [if_neg (by rw [heq]; exact (by decide : ¬((2 : Nat) ≠ 2)))] at hres
      rcases h0 : (args.getD 0 ⟨[]⟩).nodes with _ | ⟨n0, t0⟩
      · rw [h0] at hres
        exact absurd hres (by simp)
      · rw [h0] at hres
        rcases h1 : (args.getD 1 ⟨[]⟩).nodes with _ | ⟨m0, t1⟩
        · rw [h1] at hres
          exact absurd hres (by simp)
        · rw [h1] at hres
          simp only [] at hres
          injection hres with h
          injection h with h1 h2
          exact h2.symm

/-- C6 witness: `sum` invoked with zero arguments yields the default value
and `invalid_function_argument`, and with its correct single argument it
leaves a clear error state untouched. -/
theorem c6_arity_validation_witness :
    sum_fn [] none =
      some (Json.defaultJson, some jsonpath_errc.invalid_function_argument) ∧
    ∀ (j : Json) (ec2 : ErrState),
      sum_fn [⟨[]⟩] none = some (j, ec2) → ec2 = none :=
  ⟨(c6_arity_validation (fun _ _ => []) ("sum", sum_fn)
      (by simp [functions_]) [] none).1 (by decide),
   (c6_arity_validation (fun _ _ => []) ("sum", sum_fn)
      (by simp [functions_]) [⟨[]⟩] none).2 (by decide)⟩

/-- C7: `function_table::get` on a name that is not registered sets the
error code to `function_name_not_found` and returns a null handle, and on
a registered name (exact, case-sensitive match among the seven) returns
the registered function with the error state untouched. -/
theorem c7_lookup (split : String → String → List String)
    (name : String) (ec : ErrState) :
    (name ∉ ["max", "min", "avg", "sum", "count", "prod", "tokenize"] →
      function_table_get split name ec =
        (none, some jsonpath_errc.function_name_not_found)) ∧
    (name ∈ ["max", "min", "avg", "sum", "count", "prod", "tokenize"] →
      ∃ f, (name, f) ∈ functions_ split ∧
        function_table_get split name ec = (some f, ec)) := by
  constructor
  · intro h
    have h1 : (name == "max") = false :=
      beq_eq_false_iff_ne.mpr (fun e => h (by rw [e]; simp))
    have h2 : (name == "min") = false :=
      beq_eq_false_iff_ne.mpr (fun e => h (by rw [e]; simp))
    have h3 : (name == "avg") = false :=
      beq_eq_false_iff_ne.mpr (fun e => h (by rw [e]; simp))
    have h4 : (name == "sum") = false :=
      beq_eq_false_iff_ne.mpr (fun e => h (by rw [e]; simp))
    have h5 : (name == "count") = false :=
      beq_eq_false_iff_ne.mpr (fun e => h (by rw [e]; simp))
    have h6 : (name == "prod") = false :=
      beq_eq_false_iff_ne.mpr (fun e => h (by rw [e]; simp))
    have h7 : (name == "tokenize") = false :=
      beq_eq_false_iff_ne.mpr (fun e => h (by rw [e]; simp))
    simp only [function_table_get, functions_, List.lookup, h1, h2, h3, h4, h5, h6, h7]
  · intro h
    simp only [List.mem_cons, List.not_mem_nil, or_false] at h
    rcases h with rfl | rfl | rfl | rfl | rfl | rfl | rfl
    · exact ⟨max_fn, by simp [functions_], rfl⟩
    · exact ⟨min_fn, by simp [functions_], rfl⟩
    · exact ⟨avg_fn, by simp [functions_], rfl⟩
    · exact ⟨sum_fn, by simp [functions_], rfl⟩
    · exact ⟨count_fn, by simp [functions_], rfl⟩
    · exact ⟨prod_fn, by simp [functions_], rfl⟩
    · exact ⟨tokenize_fn split, by simp [functions_], rfl⟩

/-- C7 witness: looking up the unregistered name `"foo"` yields the null
handle and `function_name_not_found`; looking up `"max"` yields a
registered function with the error state untouched. -/
theorem c7_lookup_witness :
    function_table_get (fun _ _ => []) "foo" none =
      (none, some jsonpath_errc.function_name_not_found) ∧
    ∃ f, ("max", f) ∈ functions_ (fun _ _ => ([] : List String)) ∧
      function_table_get (fun _ _ => []) "max" none = (some f, none) :=
  ⟨(c7_lookup (fun _ _ => []) "foo" none).1 (by decide),
   (c7_lookup (fun _ _ => []) "max" none).2 (by decide)⟩

/-- C8: `avg` coerces each node to f64 and returns the sum divided by the
node count; on the empty node-set it returns JSON null. -/
theorem c8_avg (ns : List Json) (ec : ErrState) :
    (ns ≠ [] →
      avg_fn [⟨ns⟩] ec =
        some (Json.num ((ns.map asNumber).sum / (ns.length : ℚ)), ec)) ∧
    avg_fn [⟨[]⟩] ec = some (Json.null, ec) := by
  constructor
  · intro hne
    rw [show avg_fn [⟨ns⟩] ec =
        some (if ns.length > 0 then
                Json.num ((ns.foldl (fun v node => v + asNumber node) 0) /
                  (ns.length : ℚ))
              else Json.null, ec) from rfl]
    rw [if_pos (List.length_pos.mpr hne)]
    rw [foldl_add_asNumber ns 0, zero_add]
  · rfl

/-- C8 witness: `avg` over nodes coercing to `[2, 4, 6]` returns their sum
divided by three, and over the empty node-set returns null. -/
theorem c8_avg_witness :
    ([Json.num 2, Json.num 4, Json.num 6] ≠ ([] : List Json)) ∧
    avg_fn [⟨[Json.num 2, Json.num 4, Json.num 6]⟩] none =
      some (Json.num (([Json.num 2, Json.num 4, Json.num 6].map asNumber).sum /
        (([Json.num 2, Json.num 4, Json.num 6] : List Json).length : ℚ)), none) :=
  ⟨by simp, (c8_avg [Json.num 2, Json.num 4, Json.num 6] none).1 (by simp)⟩

/-- C9: with the standard alphabet the encoder always emits a multiple of
four symbols — the length of `encode_base64(xs)` is `4·⌈|xs|/3⌉` — and
`encode_base64([0x00])` is the four-character string `"AA=="`. -/
theorem c9_encode_length :
    (∀ xs : List Nat,
      (encode_base64_std xs []).length = 4 * ((xs.length + 2) / 3)) ∧
    encode_base64_std [0x00] [] = ['A', 'A', '=', '='] := by
  constructor
  · intro xs
    have h := encode_base64_std_length_acc xs []
    simpa [encode_base64_std] using h
  · rfl

/-- C10: both encoders append to the caller-supplied result string without
clearing it — for any prior content `s` the result is `s` followed by the
encoding produced from an empty result string. -/
theorem c10_encode_appends (alphabet : List Char) (xs : List Nat)
    (s : List Char) :
    encode_base64 alphabet xs s = s ++ encode_base64 alphabet xs [] ∧
    encode_base64url xs s = s ++ encode_base64url xs [] :=
  ⟨encode_base64_acc alphabet xs s, encode_base64_acc base64url_alphabet xs s⟩

end Jsoncons
